import Mathlib

/-!
Verification of the pension-contribution overdue-interest calculator
(`src/app.py`) against its natural-language specification.

The embedding models:
* Python `datetime.date` as a triple of year/month/day over the proleptic
  Gregorian calendar, with `Date.ord` the rata-die style day ordinal used
  for date comparison and date subtraction (`(a - b).days = a.ord - b.ord`);
  the model extends one year below Python's `date.min` (year 0) so that
  `prevDay` is total on all Python-valid dates.
* Python floats as exact rationals (`ℚ`): every literal of the source
  (`0.01`, the rate table, `0.00001`) denotes its decimal value.
* Python `round` (banker's rounding, round-half-to-even) as `pyRound`.

Source functions keep their Python names: `get_last_day_of_month`,
`calculate_deadline_from_period`, `INTEREST_RATES`, `get_rate`,
`calculate_interest` (whose per-year loop is `segmentsLoop`).
-/

/-- Gregorian leap-year rule; `calendar.isleap` / what `calendar.monthrange`
uses for February. -/
def isLeap (y : ℕ) : Bool := (y % 4 == 0 && y % 100 != 0) || (y % 400 == 0)

/-- Number of days of month `m` (1–12) of year `y`; `calendar.monthrange(y, m)[1]`. -/
def daysInMonth (y m : ℕ) : ℕ :=
  if m = 2 then (if isLeap y then 29 else 28)
  else if m = 4 ∨ m = 6 ∨ m = 9 ∨ m = 11 then 30
  else 31

/-- Days of year `y` that lie strictly before month `m`. -/
def daysBeforeMonth (y : ℕ) : ℕ → ℕ
  | 0 => 0
  | 1 => 0
  | m + 2 => daysBeforeMonth y (m + 1) + daysInMonth y (m + 1)

/-- Number of days of year `y`. -/
def daysInYear (y : ℕ) : ℕ := if isLeap y then 366 else 365

/-- Days lying strictly before January 1 of year `y`, counting from
January 1 of year 0 (the model's epoch; year 0 is a leap year). -/
def daysBeforeYear : ℕ → ℕ
  | 0 => 0
  | y + 1 => 366 + 365 * y + y / 4 + y / 400 - y / 100

/-- A calendar date, as Python's `datetime.date(y, m, d)`. -/
structure Date where
  y : ℕ
  m : ℕ
  d : ℕ
deriving DecidableEq

/-- Day ordinal of a date: dates compare and subtract through it, as
Python's `date.toordinal` (shifted by the year-0 epoch). -/
def Date.ord (dt : Date) : ℕ :=
  daysBeforeYear dt.y + daysBeforeMonth dt.y dt.m + dt.d

/-- The date triples Python's `datetime.date` accepts (year ≥ 1, month 1–12,
day within the month). -/
def Date.Valid (dt : Date) : Prop :=
  1 ≤ dt.y ∧ 1 ≤ dt.m ∧ dt.m ≤ 12 ∧ 1 ≤ dt.d ∧ dt.d ≤ daysInMonth dt.y dt.m

instance (dt : Date) : Decidable dt.Valid := by
  unfold Date.Valid; infer_instance

/-- Python's `some_date + timedelta(days=1)`. -/
def nextDay (dt : Date) : Date :=
  if dt.d < daysInMonth dt.y dt.m then ⟨dt.y, dt.m, dt.d + 1⟩
  else if dt.m < 12 then ⟨dt.y, dt.m + 1, 1⟩
  else ⟨dt.y + 1, 1, 1⟩

/-- Python's `some_date - timedelta(days=1)`. -/
def prevDay (dt : Date) : Date :=
  if 1 < dt.d then ⟨dt.y, dt.m, dt.d - 1⟩
  else if 1 < dt.m then ⟨dt.y, dt.m - 1, daysInMonth dt.y (dt.m - 1)⟩
  else ⟨dt.y - 1, 12, 31⟩

/-- Embedding of `get_last_day_of_month`: the last day of the month,
via `calendar.monthrange`. -/
def get_last_day_of_month (year month : ℕ) : Date :=
  ⟨year, month, daysInMonth year month⟩

/-- Embedding of `calculate_deadline_from_period`: coverage-end month of the
two-month billing period, plus two months, wrapping past December. -/
def calculate_deadline_from_period (roc_year month : ℕ) : Date :=
  let year := roc_year + 1911
  let coverage_end_month := if month % 2 ≠ 0 then month + 1 else month
  let deadline_month := coverage_end_month + 2
  let deadline_year := year
  if deadline_month > 12 then
    get_last_day_of_month (deadline_year + 1) (deadline_month - 12)
  else
    get_last_day_of_month deadline_year deadline_month

/-- Embedding of the `INTEREST_RATES` dict as an association list
(year key, annual percentage rate). -/
def INTEREST_RATES : List (ℤ × ℚ) :=
  [(2009, 1.39), (2010, 0.83), (2011, 1.08),
   (2012, 1.37), (2013, 1.37), (2014, 1.37), (2015, 1.37),
   (2016, 1.20), (2017, 1.04), (2018, 1.04), (2019, 1.04), (2020, 1.04),
   (2021, 0.78), (2022, 0.78),
   (2023, 1.475), (2024, 1.600), (2025, 1.725), (2026, 1.725)]

/-- Python's `dict.get`: the value at the first matching key, if any. -/
def dictGet (table : List (ℤ × ℚ)) (key : ℤ) : Option ℚ :=
  match table with
  | [] => none
  | (k, v) :: rest => if key = k then some v else dictGet rest key

/-- Python's `max(INTEREST_RATES.keys())`. -/
def ratesMaxKey : ℤ := (INTEREST_RATES.map Prod.fst).foldl max 0

/-- Embedding of `get_rate`: the tabulated rate, else the rate of the
greatest tabulated year. -/
def get_rate (year : ℤ) : ℚ :=
  (dictGet INTEREST_RATES year).getD ((dictGet INTEREST_RATES ratesMaxKey).getD 0)

/-- Per-segment raw interest, `(principal * rate * 0.01 * days_in_segment) / 365`. -/
def interest_segment (principal : ℕ) (rate : ℚ) (days : ℤ) : ℚ :=
  ((principal : ℚ) * rate * 0.01 * (days : ℚ)) / 365

/-- Truncation to one decimal place, `math.floor(x * 10) / 10.0`. -/
def truncate1 (q : ℚ) : ℚ := (⌊q * 10⌋ : ℚ) / 10

/-- One row of the breakdown produced by `calculate_interest`. -/
structure Segment where
  year : ℕ
  days : ℤ
  rate : ℚ
  interest : ℚ
deriving DecidableEq

/-- The year-segmentation loop of `calculate_interest`.  Each pass covers
`iter_date` up to `min(date(year, 12, 31), end_date)`, then restarts on the
following day.  The `fuel` argument is a structural bound on the number of
passes (the caller supplies more fuel than there are years, so it never runs
out; Python's `while` needs no such bound). -/
def segmentsLoop (principal : ℕ) (end_date : Date) : ℕ → Date → List Segment
  | 0, _ => []
  | fuel + 1, iter_date =>
    if iter_date.ord ≤ end_date.ord then
      let year := iter_date.y
      let year_end : Date := ⟨year, 12, 31⟩
      let segment_end := if year_end.ord ≤ end_date.ord then year_end else end_date
      let days_in_segment : ℤ := (segment_end.ord : ℤ) - (iter_date.ord : ℤ) + 1
      let rate := get_rate (year : ℤ)
      let interest_truncated := truncate1 (interest_segment principal rate days_in_segment)
      { year := year, days := days_in_segment, rate := rate, interest := interest_truncated }
        :: segmentsLoop principal end_date fuel (nextDay segment_end)
    else []

/-- Python's `round` on a rational argument: nearest integer, ties to even. -/
def pyRound (q : ℚ) : ℤ :=
  if q - ⌊q⌋ < 1 / 2 then ⌊q⌋
  else if 1 / 2 < q - ⌊q⌋ then ⌊q⌋ + 1
  else if 2 ∣ ⌊q⌋ then ⌊q⌋ else ⌊q⌋ + 1

/-- Embedding of `calculate_interest`: accrual window is
`[deadline + 1 day, payment - 1 day]`; empty window returns `(0, [])`;
otherwise per-year segments are summed and `int(round(total + 0.00001))`
is taken. -/
def calculate_interest (principal : ℕ) (deadline_date payment_date : Date) :
    ℤ × List Segment :=
  let start_date := nextDay deadline_date
  let end_date := prevDay payment_date
  if end_date.ord < start_date.ord then (0, [])
  else
    let breakdown := segmentsLoop principal end_date (end_date.y + 1) start_date
    let total_interest_raw := (breakdown.map Segment.interest).sum
    (pyRound (total_interest_raw + 0.00001), breakdown)

/-- Round-half-up rounding to the nearest integer, the semantics the
specification names for the final rounding step. -/
def roundHalfUp (q : ℚ) : ℤ := ⌊q + 1 / 2⌋

/-- Consecutive run of calendar years from `a` to `b` inclusive. -/
def yearsRange (a b : ℕ) : List ℕ := (List.range (b + 1 - a)).map (a + ·)

/-- Ordinal of January 1 of year `y`. -/
def yearStartOrd (y : ℕ) : ℕ := daysBeforeYear y + 1

/-- Ordinal of December 31 of year `y`. -/
def yearEndOrd (y : ℕ) : ℕ := daysBeforeYear (y + 1)

/-! ### Calendar arithmetic lemmas -/

theorem isLeap_iff (y : ℕ) :
    isLeap y = true ↔ (y % 4 = 0 ∧ y % 100 ≠ 0) ∨ y % 400 = 0 := by
  simp [isLeap]

theorem daysInMonth_pos (y m : ℕ) : 1 ≤ daysInMonth y m := by
  unfold daysInMonth; split_ifs <;> omega

theorem daysInMonth_12 (y : ℕ) : daysInMonth y 12 = 31 := rfl

theorem daysBeforeMonth_step (y m : ℕ) (hm : 1 ≤ m) :
    daysBeforeMonth y (m + 1) = daysBeforeMonth y m + daysInMonth y m := by
  obtain ⟨n, rfl⟩ : ∃ n, m = n + 1 := ⟨m - 1, by omega⟩
  rfl

theorem daysBeforeMonth_mono (y : ℕ) : Monotone (daysBeforeMonth y) := by
  apply monotone_nat_of_le_succ
  intro n
  cases n with
  | zero => simp [daysBeforeMonth]
  | succ k => rw [daysBeforeMonth_step y (k + 1) (by omega)]; omega

theorem daysBeforeMonth_12_add (y : ℕ) :
    daysBeforeMonth y 12 + 31 = daysInYear y := by
  cases h : isLeap y <;>
    simp [daysBeforeMonth, daysInMonth, daysInYear, h]

theorem daysInYear_ge (y : ℕ) : 365 ≤ daysInYear y := by
  unfold daysInYear; split_ifs <;> omega

theorem daysBeforeYear_succ (y : ℕ) :
    daysBeforeYear (y + 1) = daysBeforeYear y + daysInYear y := by
  cases y with
  | zero => decide
  | succ k =>
    have h4 := Nat.succ_div k 4
    have h100 := Nat.succ_div k 100
    have h400 := Nat.succ_div k 400
    have hle1 : k / 100 ≤ k / 4 := Nat.div_le_div_left (by norm_num) (by norm_num)
    have hle2 : (k + 1) / 100 ≤ (k + 1) / 4 :=
      Nat.div_le_div_left (by norm_num) (by norm_num)
    by_cases d4 : (4 : ℕ) ∣ (k + 1) <;> by_cases d100 : (100 : ℕ) ∣ (k + 1) <;>
      by_cases d400 : (400 : ℕ) ∣ (k + 1)
    all_goals first
      | exact absurd (dvd_trans (by norm_num) d100) d4
      | exact absurd (dvd_trans (by norm_num) d400) d100
      | (simp only [d4, d100, d400, if_true, if_false] at h4 h100 h400
         simp only [daysBeforeYear, daysInYear, isLeap_iff]
         split_ifs with hL <;> omega)

theorem daysBeforeYear_mono : Monotone daysBeforeYear := by
  apply monotone_nat_of_le_succ
  intro y
  rw [daysBeforeYear_succ]
  omega

theorem ord_pos (dt : Date) (hd : 1 ≤ dt.d) : 1 ≤ dt.ord := by
  unfold Date.ord; omega

theorem ord_bounds (dt : Date) (hv : dt.Valid) :
    daysBeforeYear dt.y < dt.ord ∧ dt.ord ≤ daysBeforeYear (dt.y + 1) := by
  obtain ⟨hy, hm1, hm2, hd1, hd2⟩ := hv
  constructor
  · unfold Date.ord; omega
  · unfold Date.ord
    have h1 : daysBeforeMonth dt.y dt.m + dt.d ≤ daysBeforeMonth dt.y (dt.m + 1) := by
      rw [daysBeforeMonth_step dt.y dt.m hm1]; omega
    have h2 : daysBeforeMonth dt.y (dt.m + 1) ≤ daysBeforeMonth dt.y 13 :=
      daysBeforeMonth_mono dt.y (by omega)
    have h3 : daysBeforeMonth dt.y 13 = daysInYear dt.y := by
      rw [daysBeforeMonth_step dt.y 12 (by omega), daysInMonth_12,
        daysBeforeMonth_12_add]
    rw [daysBeforeYear_succ]
    omega

theorem nextDay_ord (dt : Date) (hv : dt.Valid) : (nextDay dt).ord = dt.ord + 1 := by
  obtain ⟨hy, hm1, hm2, hd1, hd2⟩ := hv
  unfold nextDay
  split_ifs with h1 h2
  · show daysBeforeYear dt.y + daysBeforeMonth dt.y dt.m + (dt.d + 1) = dt.ord + 1
    unfold Date.ord; omega
  · have hd : dt.d = daysInMonth dt.y dt.m := by omega
    show daysBeforeYear dt.y + daysBeforeMonth dt.y (dt.m + 1) + 1 = dt.ord + 1
    rw [daysBeforeMonth_step dt.y dt.m hm1]
    unfold Date.ord; omega
  · have hm : dt.m = 12 := by omega
    have hd : dt.d = 31 := by
      rw [hm] at h1 hd2
      rw [daysInMonth_12] at h1 hd2
      omega
    show daysBeforeYear (dt.y + 1) + daysBeforeMonth (dt.y + 1) 1 + 1 = dt.ord + 1
    have h3 : daysBeforeMonth (dt.y + 1) 1 = 0 := rfl
    have h4 := daysBeforeMonth_12_add dt.y
    rw [daysBeforeYear_succ]
    unfold Date.ord
    rw [hm, hd]
    omega

theorem nextDay_valid (dt : Date) (hv : dt.Valid) : (nextDay dt).Valid := by
  obtain ⟨hy, hm1, hm2, hd1, hd2⟩ := hv
  unfold nextDay
  split_ifs with h1 h2
  · exact ⟨hy, hm1, hm2, Nat.le_add_left 1 dt.d, h1⟩
  · exact ⟨hy, Nat.le_add_left 1 dt.m, show dt.m + 1 ≤ 12 by omega, le_refl 1,
      daysInMonth_pos dt.y (dt.m + 1)⟩
  · exact ⟨Nat.le_add_left 1 dt.y, le_refl 1, show (1 : ℕ) ≤ 12 by omega, le_refl 1,
      daysInMonth_pos (dt.y + 1) 1⟩

theorem prevDay_ord (dt : Date) (hv : dt.Valid) : (prevDay dt).ord = dt.ord - 1 := by
  obtain ⟨hy, hm1, hm2, hd1, hd2⟩ := hv
  unfold prevDay
  split_ifs with h1 h2
  · show daysBeforeYear dt.y + daysBeforeMonth dt.y dt.m + (dt.d - 1) = dt.ord - 1
    unfold Date.ord; omega
  · have hd : dt.d = 1 := by omega
    show daysBeforeYear dt.y + daysBeforeMonth dt.y (dt.m - 1) + daysInMonth dt.y (dt.m - 1) =
      dt.ord - 1
    have h3 : daysBeforeMonth dt.y (dt.m - 1 + 1) =
        daysBeforeMonth dt.y (dt.m - 1) + daysInMonth dt.y (dt.m - 1) :=
      daysBeforeMonth_step dt.y (dt.m - 1) (by omega)
    rw [show dt.m - 1 + 1 = dt.m by omega] at h3
    unfold Date.ord; omega
  · have hm : dt.m = 1 := by omega
    have hd : dt.d = 1 := by omega
    show daysBeforeYear (dt.y - 1) + daysBeforeMonth (dt.y - 1) 12 + 31 = dt.ord - 1
    have h3 : daysBeforeYear (dt.y - 1 + 1) =
        daysBeforeYear (dt.y - 1) + daysInYear (dt.y - 1) :=
      daysBeforeYear_succ (dt.y - 1)
    rw [show dt.y - 1 + 1 = dt.y by omega] at h3
    have h4 := daysBeforeMonth_12_add (dt.y - 1)
    have h6 : daysBeforeMonth dt.y 1 = 0 := rfl
    unfold Date.ord
    rw [hm, hd]
    omega

theorem prevDay_valid_cases (dt : Date) (hv : dt.Valid) :
    (prevDay dt).Valid ∨ prevDay dt = ⟨0, 12, 31⟩ := by
  obtain ⟨hy, hm1, hm2, hd1, hd2⟩ := hv
  unfold prevDay
  split_ifs with h1 h2
  · exact Or.inl ⟨hy, hm1, hm2, show 1 ≤ dt.d - 1 by omega,
      show dt.d - 1 ≤ daysInMonth dt.y dt.m by omega⟩
  · exact Or.inl ⟨hy, show 1 ≤ dt.m - 1 by omega, show dt.m - 1 ≤ 12 by omega,
      daysInMonth_pos dt.y (dt.m - 1), le_refl _⟩
  · by_cases hy1 : dt.y = 1
    · exact Or.inr (by rw [hy1])
    · exact Or.inl ⟨show 1 ≤ dt.y - 1 by omega, show (1 : ℕ) ≤ 12 by omega, le_refl 12,
        show (1 : ℕ) ≤ 31 by omega, le_of_eq (daysInMonth_12 (dt.y - 1)).symm⟩

theorem year_le_of_ord_le (a b : Date) (ha : a.Valid) (hb : b.Valid)
    (h : a.ord ≤ b.ord) : a.y ≤ b.y := by
  by_contra hlt
  push_neg at hlt
  have h1 := (ord_bounds b hb).2
  have h2 := (ord_bounds a ha).1
  have h3 : daysBeforeYear (b.y + 1) ≤ daysBeforeYear a.y := daysBeforeYear_mono (by omega)
  omega

/-! ### Characterization of the year-segmentation loop -/

/-- The segment the loop produces for calendar year `yy` of a window whose
first day has ordinal `S` and last day ordinal `E`. -/
def windowSeg (p : ℕ) (S E : ℕ) (yy : ℕ) : Segment :=
  { year := yy,
    days := (min (yearEndOrd yy) E : ℤ) - (max (yearStartOrd yy) S : ℤ) + 1,
    rate := get_rate (yy : ℤ),
    interest := truncate1 (interest_segment p (get_rate (yy : ℤ))
      ((min (yearEndOrd yy) E : ℤ) - (max (yearStartOrd yy) S : ℤ) + 1)) }

theorem dec31_ord (y : ℕ) : (⟨y, 12, 31⟩ : Date).ord = yearEndOrd y := by
  show daysBeforeYear y + daysBeforeMonth y 12 + 31 = yearEndOrd y
  unfold yearEndOrd
  rw [daysBeforeYear_succ]
  have := daysBeforeMonth_12_add y
  omega

theorem jan1_ord (y : ℕ) : (⟨y, 1, 1⟩ : Date).ord = yearStartOrd y := rfl

theorem nextDay_dec31 (y : ℕ) : nextDay ⟨y, 12, 31⟩ = ⟨y + 1, 1, 1⟩ := rfl

theorem jan1_valid (y : ℕ) : (⟨y + 1, 1, 1⟩ : Date).Valid :=
  ⟨Nat.le_add_left 1 y, le_refl 1, show (1 : ℕ) ≤ 12 by omega, le_refl 1,
    daysInMonth_pos (y + 1) 1⟩

theorem segmentsLoop_nil (p : ℕ) (e iter : Date) (fuel : ℕ) (h : e.ord < iter.ord) :
    segmentsLoop p e fuel iter = [] := by
  cases fuel with
  | zero => rfl
  | succ k => simp only [segmentsLoop]; rw [if_neg (by omega)]

theorem mem_yearsRange (a b yy : ℕ) : yy ∈ yearsRange a b ↔ a ≤ yy ∧ yy ≤ b := by
  unfold yearsRange
  simp only [List.mem_map, List.mem_range]
  constructor
  · rintro ⟨i, hi, rfl⟩; omega
  · rintro ⟨h1, h2⟩; exact ⟨yy - a, by omega, by omega⟩

theorem yearsRange_single (a : ℕ) : yearsRange a a = [a] := by
  unfold yearsRange
  rw [show a + 1 - a = 1 by omega]
  rfl

theorem yearsRange_cons (a b : ℕ) (h : a ≤ b) :
    yearsRange a b = a :: yearsRange (a + 1) b := by
  unfold yearsRange
  rw [show b + 1 - a = (b - a) + 1 by omega, List.range_succ_eq_map,
    show b + 1 - (a + 1) = b - a by omega]
  simp only [List.map_cons, List.map_map]
  refine congrArg₂ List.cons (by omega) ?_
  exact List.map_congr_left fun i _ => by simp only [Function.comp_apply]; omega

theorem windowSeg_start_irrel (p : ℕ) (S T E yy : ℕ)
    (hS : S ≤ yearStartOrd yy) (hT : T ≤ yearStartOrd yy) :
    windowSeg p S E yy = windowSeg p T E yy := by
  unfold windowSeg
  rw [max_eq_left (show (S : ℤ) ≤ (yearStartOrd yy : ℤ) by exact_mod_cast hS),
    max_eq_left (show (T : ℤ) ≤ (yearStartOrd yy : ℤ) by exact_mod_cast hT)]

theorem segmentsLoop_eq (p : ℕ) (e : Date) (he : e.Valid) :
    ∀ n fuel iter_date, iter_date.Valid → iter_date.ord ≤ e.ord →
      e.y - iter_date.y = n → n < fuel →
      segmentsLoop p e fuel iter_date =
        (yearsRange iter_date.y e.y).map (windowSeg p iter_date.ord e.ord) := by
  intro n
  induction n with
  | zero =>
    intro fuel iter hv hle hyn hfuel
    obtain ⟨k, rfl⟩ : ∃ k, fuel = k + 1 := ⟨fuel - 1, by omega⟩
    have hyy : iter.y ≤ e.y := year_le_of_ord_le iter e hv he hle
    have hy : e.y = iter.y := by omega
    have hiterlo := (ord_bounds iter hv).1
    have hiterhi := (ord_bounds iter hv).2
    have hehi := (ord_bounds e he).2
    have hEle : e.ord ≤ yearEndOrd iter.y := by
      unfold yearEndOrd; rw [← hy]; exact hehi
    have hso : yearStartOrd iter.y ≤ iter.ord := by unfold yearStartOrd; omega
    have hmax : max ((yearStartOrd iter.y : ℤ)) ((iter.ord : ℤ)) = (iter.ord : ℤ) :=
      max_eq_right (by exact_mod_cast hso)
    simp only [segmentsLoop]
    rw [if_pos hle, dec31_ord]
    rw [hy, yearsRange_single, List.map_singleton]
    by_cases hcase : yearEndOrd iter.y ≤ e.ord
    · have heq : e.ord = yearEndOrd iter.y := le_antisymm hEle hcase
      rw [if_pos hcase, nextDay_dec31,
        segmentsLoop_nil p e ⟨iter.y + 1, 1, 1⟩ k
          (by rw [jan1_ord]; unfold yearStartOrd yearEndOrd at *; omega)]
      rw [dec31_ord]
      unfold windowSeg
      rw [min_eq_left (by exact_mod_cast hcase : (yearEndOrd iter.y : ℤ) ≤ (e.ord : ℤ)), hmax]
    · push_neg at hcase
      rw [if_neg (by omega), segmentsLoop_nil p e (nextDay e) k (by rw [nextDay_ord e he]; omega)]
      unfold windowSeg
      rw [min_eq_right (by exact_mod_cast hEle : (e.ord : ℤ) ≤ (yearEndOrd iter.y : ℤ)), hmax]
  | succ n ih =>
    intro fuel iter hv hle hyn hfuel
    obtain ⟨k, rfl⟩ : ∃ k, fuel = k + 1 := ⟨fuel - 1, by omega⟩
    have hylt : iter.y < e.y := by omega
    have hiterlo := (ord_bounds iter hv).1
    have hiterhi := (ord_bounds iter hv).2
    have helo := (ord_bounds e he).1
    have hmono : daysBeforeYear (iter.y + 1) ≤ daysBeforeYear e.y :=
      daysBeforeYear_mono (by omega)
    have hcase : yearEndOrd iter.y < e.ord := by unfold yearEndOrd; omega
    have hso : yearStartOrd iter.y ≤ iter.ord := by unfold yearStartOrd; omega
    have hmax : max ((yearStartOrd iter.y : ℤ)) ((iter.ord : ℤ)) = (iter.ord : ℤ) :=
      max_eq_right (by exact_mod_cast hso)
    simp only [segmentsLoop]
    rw [if_pos hle, dec31_ord, if_pos (le_of_lt hcase), nextDay_dec31, dec31_ord]
    have h2 : (⟨iter.y + 1, 1, 1⟩ : Date).ord ≤ e.ord := by
      rw [jan1_ord]; unfold yearStartOrd yearEndOrd at *; omega
    have h3 : e.y - (⟨iter.y + 1, 1, 1⟩ : Date).y = n := by
      show e.y - (iter.y + 1) = n; omega
    rw [ih k ⟨iter.y + 1, 1, 1⟩ (jan1_valid iter.y) h2 h3 (by omega)]
    rw [yearsRange_cons iter.y e.y (le_of_lt hylt), List.map_cons]
    refine congrArg₂ List.cons ?_ ?_
    · unfold windowSeg
      rw [min_eq_left (by exact_mod_cast le_of_lt hcase : (yearEndOrd iter.y : ℤ) ≤ (e.ord : ℤ)),
        hmax]
    · refine List.map_congr_left fun yy hyy => ?_
      rw [mem_yearsRange] at hyy
      have hysm : yearStartOrd (iter.y + 1) ≤ yearStartOrd yy := by
        unfold yearStartOrd
        have := daysBeforeYear_mono (show iter.y + 1 ≤ yy from hyy.1)
        omega
      rw [jan1_ord]
      refine windowSeg_start_irrel p _ _ e.ord yy hysm ?_
      unfold yearStartOrd yearEndOrd at *
      omega

theorem valid_ord_lb (dt : Date) (hv : dt.Valid) : 367 ≤ dt.ord := by
  have h1 : daysBeforeYear 1 ≤ daysBeforeYear dt.y := daysBeforeYear_mono hv.1
  have h2 : daysBeforeYear 1 = 366 := rfl
  have h3 := hv.2.2.2.1
  unfold Date.ord
  omega

theorem prevDay_valid_of (dl pd : Date) (hdl : dl.Valid) (hpd : pd.Valid)
    (h : (nextDay dl).ord ≤ (prevDay pd).ord) : (prevDay pd).Valid := by
  rcases prevDay_valid_cases pd hpd with hva | hbad
  · exact hva
  · exfalso
    have h1 : (⟨0, 12, 31⟩ : Date).ord = 366 := rfl
    have h2 := valid_ord_lb dl hdl
    have h3 := nextDay_ord dl hdl
    rw [hbad, h1] at h
    omega

theorem calculate_interest_eq (p : ℕ) (dl pd : Date) (hdl : dl.Valid) (hpd : pd.Valid)
    (hne : (nextDay dl).ord ≤ (prevDay pd).ord) :
    calculate_interest p dl pd =
      (pyRound ((((yearsRange (nextDay dl).y (prevDay pd).y).map
          (windowSeg p (nextDay dl).ord (prevDay pd).ord)).map Segment.interest).sum + 0.00001),
       (yearsRange (nextDay dl).y (prevDay pd).y).map
         (windowSeg p (nextDay dl).ord (prevDay pd).ord)) := by
  have he := prevDay_valid_of dl pd hdl hpd hne
  have hs := nextDay_valid dl hdl
  unfold calculate_interest
  rw [if_neg (by omega)]
  rw [segmentsLoop_eq p (prevDay pd) he ((prevDay pd).y - (nextDay dl).y)
    ((prevDay pd).y + 1) (nextDay dl) hs hne rfl (by omega)]

/-! ### Rate table lemmas -/

theorem dictGet_mem : ∀ (t : List (ℤ × ℚ)) (k : ℤ) (v : ℚ),
    dictGet t k = some v → (k, v) ∈ t := by
  intro t
  induction t with
  | nil => intro k v h; exact absurd h (by simp [dictGet])
  | cons hd tl ih =>
    intro k v h
    obtain ⟨a, b⟩ := hd
    rw [dictGet] at h
    by_cases hk : k = a
    · rw [if_pos hk] at h
      injection h with h
      subst hk
      subst h
      exact List.mem_cons_self _ _
    · rw [if_neg hk] at h
      exact List.mem_cons_of_mem _ (ih k v h)

theorem dictGet_none : ∀ (t : List (ℤ × ℚ)) (k : ℤ),
    k ∉ t.map Prod.fst → dictGet t k = none := by
  intro t
  induction t with
  | nil => intro k _; rfl
  | cons hd tl ih =>
    intro k h
    obtain ⟨a, b⟩ := hd
    simp only [List.map_cons, List.mem_cons] at h
    push_neg at h
    rw [dictGet, if_neg h.1]
    exact ih k h.2

theorem get_rate_tabulated (y : ℤ) (r : ℚ) (h : (y, r) ∈ INTEREST_RATES) :
    get_rate y = r := by
  fin_cases h <;> rfl

theorem get_rate_fallback (y : ℤ) (h : y ∉ INTEREST_RATES.map Prod.fst) :
    get_rate y = 1.725 := by
  unfold get_rate
  rw [dictGet_none INTEREST_RATES y h]
  rfl

theorem get_rate_nonneg (y : ℤ) : 0 ≤ get_rate y := by
  cases h : dictGet INTEREST_RATES y with
  | none =>
    have hf : get_rate y = 1.725 := by unfold get_rate; rw [h]; rfl
    rw [hf]; norm_num
  | some r =>
    have hmem := dictGet_mem INTEREST_RATES y r h
    have hr : get_rate y = r := by unfold get_rate; rw [h]; rfl
    rw [hr]
    fin_cases hmem <;> norm_num

/-! ### Rounding lemmas -/

theorem pyRound_bounds (x : ℚ) : ⌊x⌋ ≤ pyRound x ∧ pyRound x ≤ ⌊x⌋ + 1 := by
  unfold pyRound
  split_ifs <;> omega

theorem pyRound_eq_roundHalfUp (q : ℚ) (h : q - ⌊q⌋ ≠ 1 / 2) :
    pyRound q = roundHalfUp q := by
  have h0 : ((⌊q⌋ : ℚ)) ≤ q := Int.floor_le q
  have h1 : q < ⌊q⌋ + 1 := Int.lt_floor_add_one q
  unfold pyRound roundHalfUp
  split_ifs with hc1 hc2
  · symm
    rw [Int.floor_eq_iff]
    constructor
    · linarith
    · linarith
  · symm
    rw [Int.floor_eq_iff]
    constructor
    · push_cast; linarith
    · push_cast; linarith
  all_goals
    exact absurd (by linarith : q - ⌊q⌋ = 1 / 2) h

theorem pyRound_mono (a b : ℚ) (h : a ≤ b) : pyRound a ≤ pyRound b := by
  have hfab : ⌊a⌋ ≤ ⌊b⌋ := Int.floor_le_floor h
  rcases lt_or_eq_of_le hfab with hlt | heq
  · have ha := pyRound_bounds a
    have hb := pyRound_bounds b
    omega
  · have hq : ((⌊a⌋ : ℚ)) = ((⌊b⌋ : ℚ)) := by exact_mod_cast heq
    unfold pyRound
    split_ifs <;> first
      | omega
      | (exfalso; linarith)

theorem tenth_eps_ne_half (k : ℤ) :
    ((k : ℚ) / 10 + 0.00001) - ⌊(k : ℚ) / 10 + 0.00001⌋ ≠ 1 / 2 := by
  intro h
  have heps : (0.00001 : ℚ) = 1 / 100000 := by norm_num
  rw [heps] at h
  have h2 : (k : ℚ) / 10 + 1 / 100000 = (⌊(k : ℚ) / 10 + 0.00001⌋ : ℚ) + 1 / 2 := by
    rw [heps]; linarith
  have h3 : (10000 * k + 1 : ℚ) =
      100000 * (⌊(k : ℚ) / 10 + 0.00001⌋ : ℚ) + 50000 := by
    field_simp at h2
    linarith
  have h4 : (10000 * k + 1 : ℤ) = 100000 * ⌊(k : ℚ) / 10 + 0.00001⌋ + 50000 := by
    exact_mod_cast h3
  omega

/-! ### Window arithmetic lemmas -/

theorem windowSegs_days_sum (p E : ℕ) : ∀ nn a b S, b - a = nn → a ≤ b →
    daysBeforeYear a < S → S ≤ daysBeforeYear (a + 1) →
    daysBeforeYear b < E → E ≤ daysBeforeYear (b + 1) → S ≤ E →
    (((yearsRange a b).map (windowSeg p S E)).map Segment.days).sum
      = (E : ℤ) - (S : ℤ) + 1 := by
  intro nn
  induction nn with
  | zero =>
    intro a b S hab hle hS1 hS2 hE1 hE2 hSE
    have hba : a = b := by omega
    subst hba
    rw [yearsRange_single]
    simp only [List.map_singleton, List.sum_singleton]
    show min ((yearEndOrd a : ℤ)) ((E : ℤ)) - max ((yearStartOrd a : ℤ)) ((S : ℤ)) + 1
      = (E : ℤ) - (S : ℤ) + 1
    rw [min_eq_right (show (E : ℤ) ≤ (yearEndOrd a : ℤ) by
        unfold yearEndOrd; exact_mod_cast hE2),
      max_eq_right (show (yearStartOrd a : ℤ) ≤ (S : ℤ) by
        unfold yearStartOrd; exact_mod_cast hS1)]
  | succ nn ih =>
    intro a b S hab hle hS1 hS2 hE1 hE2 hSE
    have hlt : a < b := by omega
    have hmono1 : daysBeforeYear (a + 1) ≤ daysBeforeYear b := daysBeforeYear_mono (by omega)
    rw [yearsRange_cons a b (le_of_lt hlt), List.map_cons, List.map_cons, List.sum_cons]
    have htail : (yearsRange (a + 1) b).map (windowSeg p S E)
        = (yearsRange (a + 1) b).map (windowSeg p (yearStartOrd (a + 1)) E) := by
      refine List.map_congr_left fun yy hyy => ?_
      rw [mem_yearsRange] at hyy
      have hysm : yearStartOrd (a + 1) ≤ yearStartOrd yy := by
        unfold yearStartOrd
        have := daysBeforeYear_mono (show a + 1 ≤ yy from hyy.1)
        omega
      refine windowSeg_start_irrel p S (yearStartOrd (a + 1)) E yy ?_ hysm
      unfold yearStartOrd at *
      omega
    rw [htail]
    rw [ih (a + 1) b (yearStartOrd (a + 1)) (by omega) hlt
      (by unfold yearStartOrd; omega)
      (by unfold yearStartOrd
          have h1 := daysBeforeYear_succ (a + 1)
          have h2 := daysInYear_ge (a + 1)
          omega)
      hE1 hE2
      (by unfold yearStartOrd; omega)]
    show min ((yearEndOrd a : ℤ)) ((E : ℤ)) - max ((yearStartOrd a : ℤ)) ((S : ℤ)) + 1
        + ((E : ℤ) - (yearStartOrd (a + 1) : ℤ) + 1) = (E : ℤ) - (S : ℤ) + 1
    rw [min_eq_left (show (yearEndOrd a : ℤ) ≤ (E : ℤ) by
        unfold yearEndOrd; exact_mod_cast (by omega : daysBeforeYear (a + 1) ≤ E)),
      max_eq_right (show (yearStartOrd a : ℤ) ≤ (S : ℤ) by
        unfold yearStartOrd; exact_mod_cast hS1)]
    have hkey : (yearStartOrd (a + 1) : ℤ) = (yearEndOrd a : ℤ) + 1 := by
      unfold yearStartOrd yearEndOrd; push_cast; ring
    rw [hkey]
    ring

theorem windowSeg_days_nonneg (p S E a b yy : ℕ) (hyy1 : a ≤ yy) (hyy2 : yy ≤ b)
    (hS2 : S ≤ daysBeforeYear (a + 1))
    (hE1 : daysBeforeYear b < E) (hSE : S ≤ E) :
    0 ≤ (windowSeg p S E yy).days := by
  have h1 : yearStartOrd yy ≤ yearEndOrd yy := by
    unfold yearStartOrd yearEndOrd
    have := daysBeforeYear_succ yy
    have := daysInYear_ge yy
    omega
  have h2 : S ≤ yearEndOrd yy := by
    unfold yearEndOrd
    have := daysBeforeYear_mono (show a + 1 ≤ yy + 1 by omega)
    omega
  have h3 : yearStartOrd yy ≤ E := by
    unfold yearStartOrd
    have := daysBeforeYear_mono (show yy ≤ b from hyy2)
    omega
  show (0 : ℤ) ≤ min ((yearEndOrd yy : ℤ)) ((E : ℤ)) - max ((yearStartOrd yy : ℤ)) ((S : ℤ)) + 1
  have hmm : max ((yearStartOrd yy : ℤ)) ((S : ℤ)) ≤ min ((yearEndOrd yy : ℤ)) ((E : ℤ)) := by
    apply le_min
    · exact max_le (by exact_mod_cast h1) (by exact_mod_cast h2)
    · exact max_le (by exact_mod_cast h3) (by exact_mod_cast hSE)
  omega

theorem truncate1_mono (a b : ℚ) (h : a ≤ b) : truncate1 a ≤ truncate1 b := by
  unfold truncate1
  have hf : ⌊a * 10⌋ ≤ ⌊b * 10⌋ :=
    Int.floor_le_floor (by nlinarith)
  have hq : ((⌊a * 10⌋ : ℚ)) ≤ ((⌊b * 10⌋ : ℚ)) := by exact_mod_cast hf
  linarith

theorem interest_segment_mono (p1 p2 : ℕ) (r : ℚ) (d : ℤ) (hp : p1 ≤ p2)
    (hr : 0 ≤ r) (hd : 0 ≤ d) :
    interest_segment p1 r d ≤ interest_segment p2 r d := by
  unfold interest_segment
  have hpq : ((p1 : ℚ)) ≤ ((p2 : ℚ)) := by exact_mod_cast hp
  have hdq : (0 : ℚ) ≤ ((d : ℚ)) := by exact_mod_cast hd
  have h001 : (0 : ℚ) ≤ 0.01 := by norm_num
  apply div_le_div_of_nonneg_right ?_ (by norm_num)
  · exact mul_le_mul_of_nonneg_right
      (mul_le_mul_of_nonneg_right (mul_le_mul_of_nonneg_right hpq hr) h001) hdq

/-! ### Single-year windows -/

theorem calc_single_year (p : ℕ) (dl pd : Date) (hdl : dl.Valid) (hpd : pd.Valid)
    (hne : (nextDay dl).ord ≤ (prevDay pd).ord)
    (hy : (nextDay dl).y = (prevDay pd).y) :
    calculate_interest p dl pd =
      (pyRound (truncate1 (interest_segment p (get_rate ((nextDay dl).y : ℤ))
          ((pd.ord : ℤ) - (dl.ord : ℤ) - 1)) + 0.00001),
       [{ year := (nextDay dl).y,
          days := (pd.ord : ℤ) - (dl.ord : ℤ) - 1,
          rate := get_rate ((nextDay dl).y : ℤ),
          interest := truncate1 (interest_segment p (get_rate ((nextDay dl).y : ℤ))
            ((pd.ord : ℤ) - (dl.ord : ℤ) - 1)) }]) := by
  have he := prevDay_valid_of dl pd hdl hpd hne
  have hs := nextDay_valid dl hdl
  have hso := nextDay_ord dl hdl
  have heo := prevDay_ord pd hpd
  have hpd1 : 1 ≤ pd.ord := ord_pos pd hpd.2.2.2.1
  have hdays : ((prevDay pd).ord : ℤ) - ((nextDay dl).ord : ℤ) + 1
      = (pd.ord : ℤ) - (dl.ord : ℤ) - 1 := by
    rw [hso, heo]; push_cast; omega
  have hmin : min ((yearEndOrd (nextDay dl).y : ℤ)) (((prevDay pd).ord : ℤ))
      = ((prevDay pd).ord : ℤ) := by
    refine min_eq_right ?_
    have h1 : (prevDay pd).ord ≤ yearEndOrd (nextDay dl).y := by
      rw [hy]; exact (ord_bounds _ he).2
    exact_mod_cast h1
  have hmax : max ((yearStartOrd (nextDay dl).y : ℤ)) (((nextDay dl).ord : ℤ))
      = ((nextDay dl).ord : ℤ) := by
    refine max_eq_right ?_
    have h1 : yearStartOrd (nextDay dl).y ≤ (nextDay dl).ord := by
      have := (ord_bounds _ hs).1
      unfold yearStartOrd
      omega
    exact_mod_cast h1
  rw [calculate_interest_eq p dl pd hdl hpd hne]
  rw [← hy, yearsRange_single, List.map_singleton, List.map_singleton, List.sum_singleton]
  unfold windowSeg
  rw [hmin, hmax, hdays]

/-- C1: on a single-year nonempty accrual window, `calculate_interest` yields
exactly one segment, whose interest is `P × rateFor(year) × 0.01 × days / 365`
truncated to one decimal place by `floor(raw × 10)/10`, and the final interest
is that truncated value plus `0.00001`, rounded with round-half-up semantics. -/
theorem claim_C1_single_year_formula (p : ℕ) (dl pd : Date)
    (hdl : dl.Valid) (hpd : pd.Valid) (hlt : dl.ord < pd.ord)
    (hne : (nextDay dl).ord ≤ (prevDay pd).ord)
    (hy : (nextDay dl).y = (prevDay pd).y) :
    (calculate_interest p dl pd).2 =
      [{ year := (nextDay dl).y,
         days := (pd.ord : ℤ) - (dl.ord : ℤ) - 1,
         rate := get_rate ((nextDay dl).y : ℤ),
         interest := truncate1 (interest_segment p (get_rate ((nextDay dl).y : ℤ))
           ((pd.ord : ℤ) - (dl.ord : ℤ) - 1)) }]
    ∧ (calculate_interest p dl pd).1 =
      roundHalfUp (truncate1 (interest_segment p (get_rate ((nextDay dl).y : ℤ))
        ((pd.ord : ℤ) - (dl.ord : ℤ) - 1)) + 0.00001) := by
  have hlt2 : 1 ≤ pd.ord := by omega
  rw [calc_single_year p dl pd hdl hpd hne hy]
  refine ⟨rfl, ?_⟩
  show pyRound (truncate1 (interest_segment p (get_rate ((nextDay dl).y : ℤ))
      ((pd.ord : ℤ) - (dl.ord : ℤ) - 1)) + 0.00001) = _
  unfold truncate1
  exact pyRound_eq_roundHalfUp _ (tenth_eps_ne_half _)

theorem claim_C1_witness :
    (calculate_interest 1000 ⟨2023, 1, 10⟩ ⟨2023, 1, 20⟩).2 =
      [{ year := 2023, days := 9, rate := get_rate 2023,
         interest := truncate1 (interest_segment 1000 (get_rate 2023) 9) }]
    ∧ (calculate_interest 1000 ⟨2023, 1, 10⟩ ⟨2023, 1, 20⟩).1 =
      roundHalfUp (truncate1 (interest_segment 1000 (get_rate 2023) 9) + 0.00001) :=
  claim_C1_single_year_formula 1000 ⟨2023, 1, 10⟩ ⟨2023, 1, 20⟩
    (by decide) (by decide) (by decide) (by decide) (by decide)

/-- C2: whenever the payment date is on or before the deadline, the accrual
window is empty and `calculate_interest` returns `(0, [])`; the embedded
function is total, so no exception path exists. -/
theorem claim_C2_on_time_zero (p : ℕ) (dl pd : Date) (hdl : dl.Valid) (hpd : pd.Valid)
    (h : pd.ord ≤ dl.ord) : calculate_interest p dl pd = (0, []) := by
  have h1 := prevDay_ord pd hpd
  have h2 := nextDay_ord dl hdl
  have h3 := ord_pos pd hpd.2.2.2.1
  unfold calculate_interest
  rw [if_pos (by omega)]

theorem claim_C2_witness :
    calculate_interest 500 ⟨2024, 5, 15⟩ ⟨2024, 5, 15⟩ = (0, []) :=
  claim_C2_on_time_zero 500 ⟨2024, 5, 15⟩ ⟨2024, 5, 15⟩ (by decide) (by decide) (by decide)

/-- C9: the spec's end-to-end example: principal 5000, deadline 2023-06-30,
payment 2023-08-15 gives one segment (year 2023, 45 days, rate 1.475,
truncated interest 9.0) and final rounded total 9. -/
theorem claim_C9_example_single :
    calculate_interest 5000 ⟨2023, 6, 30⟩ ⟨2023, 8, 15⟩ =
      (9, [{ year := 2023, days := 45, rate := 1.475, interest := 9 }]) := by
  rw [calc_single_year 5000 ⟨2023, 6, 30⟩ ⟨2023, 8, 15⟩
    (by decide) (by decide) (by decide) (by decide)]
  show ((pyRound (truncate1 (interest_segment 5000 (get_rate 2023) 45) + 0.00001),
      [({ year := 2023, days := 45, rate := get_rate 2023,
          interest := truncate1 (interest_segment 5000 (get_rate 2023) 45) } : Segment)])
      : ℤ × List Segment)
    = (9, [({ year := 2023, days := 45, rate := 1.475, interest := 9 } : Segment)])
  have hr : get_rate 2023 = 1.475 := rfl
  rw [hr]
  norm_num [truncate1, interest_segment, pyRound]

/-! ### The cross-year example -/

theorem cross_year_example_eval :
    calculate_interest 10000 ⟨2022, 12, 1⟩ ⟨2023, 3, 1⟩ =
      (30, [({ year := 2022, days := 30, rate := 0.78, interest := 6.4 } : Segment),
            ({ year := 2023, days := 59, rate := 1.475, interest := 23.8 } : Segment)]) := by
  rw [calculate_interest_eq 10000 ⟨2022, 12, 1⟩ ⟨2023, 3, 1⟩
    (by decide) (by decide) (by decide)]
  show ((pyRound ((truncate1 (interest_segment 10000 (get_rate 2022) 30) +
      (truncate1 (interest_segment 10000 (get_rate 2023) 59) + 0)) + 0.00001),
    [({ year := 2022, days := 30, rate := get_rate 2022,
        interest := truncate1 (interest_segment 10000 (get_rate 2022) 30) } : Segment),
     ({ year := 2023, days := 59, rate := get_rate 2023,
        interest := truncate1 (interest_segment 10000 (get_rate 2023) 59) } : Segment)])
    : ℤ × List Segment)
    = (30, [({ year := 2022, days := 30, rate := 0.78, interest := 6.4 } : Segment),
            ({ year := 2023, days := 59, rate := 1.475, interest := 23.8 } : Segment)])
  have hr22 : get_rate 2022 = 0.78 := rfl
  have hr23 : get_rate 2023 = 1.475 := rfl
  rw [hr22, hr23]
  norm_num [truncate1, interest_segment, pyRound]

/-- C8 counterexample: at principal 10000, deadline 2022-12-01, payment
2023-03-01, the first segment's raw interest is 468/73 ≈ 6.41 — below 6.75,
hence not ≈ 6.8 as the claim states — and its truncated interest is 6.4. -/
theorem claim_C8_counterexample :
    (calculate_interest 10000 ⟨2022, 12, 1⟩ ⟨2023, 3, 1⟩).2.map Segment.interest
      = [6.4, 23.8]
    ∧ interest_segment 10000 (get_rate 2022) 30 = 468 / 73
    ∧ ¬ (27 / 4 ≤ interest_segment 10000 (get_rate 2022) 30) := by
  have hr22 : get_rate 2022 = 0.78 := rfl
  refine ⟨?_, ?_, ?_⟩
  · rw [cross_year_example_eval]
    rfl
  · rw [hr22]; norm_num [interest_segment]
  · rw [hr22]; norm_num [interest_segment]

/-- C8 amended: the window [2022-12-02, 2023-02-28] splits into segment
(2022, 30 days, rate 0.78, raw 468/73 ≈ 6.41 truncated to 6.4) and segment
(2023, 59 days, rate 1.475, raw 3481/146 ≈ 23.84 truncated to 23.8), and the
truncate-then-sum-then-round order yields the final total 30. -/
theorem claim_C8_cross_year_amended :
    calculate_interest 10000 ⟨2022, 12, 1⟩ ⟨2023, 3, 1⟩ =
      (30, [({ year := 2022, days := 30, rate := 0.78, interest := 6.4 } : Segment),
            ({ year := 2023, days := 59, rate := 1.475, interest := 23.8 } : Segment)])
    ∧ interest_segment 10000 (get_rate 2022) 30 = 468 / 73
    ∧ truncate1 (interest_segment 10000 (get_rate 2022) 30) = 6.4
    ∧ interest_segment 10000 (get_rate 2023) 59 = 3481 / 146
    ∧ truncate1 (interest_segment 10000 (get_rate 2023) 59) = 23.8 := by
  have hr22 : get_rate 2022 = 0.78 := rfl
  have hr23 : get_rate 2023 = 1.475 := rfl
  refine ⟨cross_year_example_eval, ?_, ?_, ?_, ?_⟩ <;>
    simp only [hr22, hr23] <;> norm_num [interest_segment, truncate1]

/-- C5: whenever the sum of the truncated per-segment interests in the
returned breakdown is exactly X + 1/2, the epsilon guard makes the final
rounded interest X + 1 (true .5 boundaries round up). -/
theorem claim_C5_half_rounds_up (p : ℕ) (dl pd : Date) (X : ℤ)
    (h : ((calculate_interest p dl pd).2.map Segment.interest).sum = (X : ℚ) + 1 / 2) :
    (calculate_interest p dl pd).1 = X + 1 := by
  by_cases hc : (prevDay pd).ord < (nextDay dl).ord
  · exfalso
    simp only [calculate_interest] at h
    rw [if_pos hc] at h
    simp only [List.map_nil, List.sum_nil] at h
    have h2 : ((2 * X + 1 : ℤ) : ℚ) = 0 := by push_cast; linarith
    have h3 : (2 * X + 1 : ℤ) = 0 := by exact_mod_cast h2
    omega
  · simp only [calculate_interest] at h ⊢
    rw [if_neg hc] at h ⊢
    show pyRound (((segmentsLoop p (prevDay pd) ((prevDay pd).y + 1)
      (nextDay dl)).map Segment.interest).sum + 0.00001) = X + 1
    rw [h]
    have hfl : ⌊(X : ℚ) + 1 / 2 + 0.00001⌋ = X := by
      rw [Int.floor_eq_iff]
      constructor
      · linarith
      · linarith
    unfold pyRound
    rw [hfl]
    rw [if_neg (by linarith), if_pos (by linarith)]

theorem claim_C5_witness :
    (calculate_interest 36500 ⟨2022, 6, 30⟩ ⟨2022, 7, 26⟩).1 = 19 + 1 := by
  refine claim_C5_half_rounds_up 36500 ⟨2022, 6, 30⟩ ⟨2022, 7, 26⟩ 19 ?_
  have hx := calc_single_year 36500 ⟨2022, 6, 30⟩ ⟨2022, 7, 26⟩
    (by decide) (by decide) (by decide) (by decide)
  rw [hx]
  show truncate1 (interest_segment 36500 (get_rate 2022) 25) + 0 = (19 : ℚ) + 1 / 2
  have hr : get_rate 2022 = 0.78 := rfl
  rw [hr]
  norm_num [truncate1, interest_segment]

/-- C3: the rate lookup is total, the greatest tabulated key is 2026 with
rate 1.725; a tabulated year returns its own rate exactly, and every other
integer year — future or past — returns exactly the rate of the greatest
tabulated key. -/
theorem claim_C3_rate_lookup_total :
    ratesMaxKey = 2026 ∧ get_rate 2026 = 1.725 ∧
    ∀ year : ℤ, (∀ r : ℚ, (year, r) ∈ INTEREST_RATES → get_rate year = r) ∧
      (year ∉ INTEREST_RATES.map Prod.fst → get_rate year = 1.725) :=
  ⟨rfl, rfl, fun year =>
    ⟨fun r h => get_rate_tabulated year r h, fun h => get_rate_fallback year h⟩⟩

theorem claim_C3_witness :
    get_rate 2010 = 0.83 ∧ get_rate 1900 = 1.725 ∧ get_rate 3000 = 1.725 :=
  ⟨(claim_C3_rate_lookup_total.2.2 2010).1 0.83
      (List.mem_cons_of_mem _ (List.mem_cons_self _ _)),
   (claim_C3_rate_lookup_total.2.2 1900).2 (by decide),
   (claim_C3_rate_lookup_total.2.2 3000).2 (by decide)⟩

theorem get_last_day_valid (y m : ℕ) (h1 : 1 ≤ y) (h2 : 1 ≤ m) (h3 : m ≤ 12) :
    (get_last_day_of_month y m).Valid :=
  ⟨h1, h2, h3, daysInMonth_pos y m, le_refl _⟩

/-- C4: for every era year and month 1–12, the deadline is the last calendar
day (leap years included) of the month two past the coverage-end month (the
even month of the two-month period), in year eraYear + 1911, rolling into the
next year when that month exceeds 12; in particular the period (112, 11)
yields 2024-02-29. -/
theorem claim_C4_deadline_rule :
    (∀ roc_year month : ℕ, 1 ≤ month → month ≤ 12 →
      (calculate_deadline_from_period roc_year month =
        (let coverage_end_month := if month % 2 = 1 then month + 1 else month
         let deadline_month := coverage_end_month + 2
         if deadline_month > 12 then
           (⟨roc_year + 1911 + 1, deadline_month - 12,
             daysInMonth (roc_year + 1911 + 1) (deadline_month - 12)⟩ : Date)
         else
           (⟨roc_year + 1911, deadline_month,
             daysInMonth (roc_year + 1911) deadline_month⟩ : Date))
      ∧ (calculate_deadline_from_period roc_year month).Valid))
    ∧ calculate_deadline_from_period 112 11 = ⟨2024, 2, 29⟩ := by
  constructor
  · intro roc_year month h1 h2
    have heq : calculate_deadline_from_period roc_year month =
        (let coverage_end_month := if month % 2 = 1 then month + 1 else month
         let deadline_month := coverage_end_month + 2
         if deadline_month > 12 then
           (⟨roc_year + 1911 + 1, deadline_month - 12,
             daysInMonth (roc_year + 1911 + 1) (deadline_month - 12)⟩ : Date)
         else
           (⟨roc_year + 1911, deadline_month,
             daysInMonth (roc_year + 1911) deadline_month⟩ : Date)) := by
      interval_cases month <;> rfl
    refine ⟨heq, ?_⟩
    rw [heq]
    show (if (if month % 2 = 1 then month + 1 else month) + 2 > 12 then
        (⟨roc_year + 1911 + 1, (if month % 2 = 1 then month + 1 else month) + 2 - 12,
          daysInMonth (roc_year + 1911 + 1)
            ((if month % 2 = 1 then month + 1 else month) + 2 - 12)⟩ : Date)
      else
        (⟨roc_year + 1911, (if month % 2 = 1 then month + 1 else month) + 2,
          daysInMonth (roc_year + 1911)
            ((if month % 2 = 1 then month + 1 else month) + 2)⟩ : Date)).Valid
    split_ifs with hp1 hp2 hp3 <;>
      exact get_last_day_valid _ _ (by omega) (by omega) (by omega)
  · rfl

theorem claim_C4_witness : calculate_deadline_from_period 113 1 = ⟨2024, 4, 30⟩ :=
  (claim_C4_deadline_rule.1 113 1 (by decide) (by decide)).1

/-- C6: for valid dates with payment after the deadline, the segment day
counts sum exactly to `(paymentDate - deadline).days - 1`, however many
calendar years the window spans. -/
theorem claim_C6_days_partition (p : ℕ) (dl pd : Date) (hdl : dl.Valid) (hpd : pd.Valid)
    (hlt : dl.ord < pd.ord) :
    ((calculate_interest p dl pd).2.map Segment.days).sum
      = (pd.ord : ℤ) - (dl.ord : ℤ) - 1 := by
  have hso := nextDay_ord dl hdl
  have heo := prevDay_ord pd hpd
  have hpd1 : 1 ≤ pd.ord := ord_pos pd hpd.2.2.2.1
  by_cases hc : (prevDay pd).ord < (nextDay dl).ord
  · have hedge : pd.ord = dl.ord + 1 := by omega
    simp only [calculate_interest]
    rw [if_pos hc]
    simp only [List.map_nil, List.sum_nil]
    rw [hedge]; push_cast; ring
  · push_neg at hc
    have he := prevDay_valid_of dl pd hdl hpd hc
    have hs := nextDay_valid dl hdl
    have hsb := ord_bounds _ hs
    have heb := ord_bounds _ he
    have hy := year_le_of_ord_le _ _ hs he hc
    rw [calculate_interest_eq p dl pd hdl hpd hc]
    show ((((yearsRange (nextDay dl).y (prevDay pd).y).map
        (windowSeg p (nextDay dl).ord (prevDay pd).ord)).map Segment.days).sum : ℤ) = _
    rw [windowSegs_days_sum p (prevDay pd).ord ((prevDay pd).y - (nextDay dl).y)
      (nextDay dl).y (prevDay pd).y (nextDay dl).ord rfl hy hsb.1 hsb.2 heb.1 heb.2 hc]
    rw [hso, heo]
    push_cast
    omega

theorem claim_C6_witness :
    ((calculate_interest 100 ⟨2021, 12, 30⟩ ⟨2022, 1, 5⟩).2.map Segment.days).sum = 5 := by
  have h := claim_C6_days_partition 100 ⟨2021, 12, 30⟩ ⟨2022, 1, 5⟩
    (by decide) (by decide) (by decide)
  rw [h]
  decide

/-- C7: on a non-empty accrual window the segments list the calendar years
of the window consecutively from its first year to its last — strictly
increasing, no gaps, no repeats. -/
theorem claim_C7_segment_years (p : ℕ) (dl pd : Date) (hdl : dl.Valid) (hpd : pd.Valid)
    (hne : (nextDay dl).ord ≤ (prevDay pd).ord) :
    (calculate_interest p dl pd).2.map Segment.year
      = yearsRange (nextDay dl).y (prevDay pd).y := by
  rw [calculate_interest_eq p dl pd hdl hpd hne]
  show ((yearsRange (nextDay dl).y (prevDay pd).y).map
      (windowSeg p (nextDay dl).ord (prevDay pd).ord)).map Segment.year = _
  rw [List.map_map]
  have hco : (Segment.year ∘ windowSeg p (nextDay dl).ord (prevDay pd).ord) = id :=
    funext fun yy => rfl
  rw [hco, List.map_id]

theorem claim_C7_witness :
    (calculate_interest 100 ⟨2020, 12, 30⟩ ⟨2023, 1, 2⟩).2.map Segment.year
      = [2020, 2021, 2022, 2023] := by
  have h := claim_C7_segment_years 100 ⟨2020, 12, 30⟩ ⟨2023, 1, 2⟩
    (by decide) (by decide) (by decide)
  rw [h]
  decide

/-- C10: for a fixed pair of valid dates the final rounded interest is
monotonically non-decreasing in the principal. -/
theorem claim_C10_monotone_principal (p1 p2 : ℕ) (dl pd : Date)
    (hdl : dl.Valid) (hpd : pd.Valid) (hp : p1 ≤ p2) :
    (calculate_interest p1 dl pd).1 ≤ (calculate_interest p2 dl pd).1 := by
  by_cases hc : (prevDay pd).ord < (nextDay dl).ord
  · simp only [calculate_interest]
    rw [if_pos hc, if_pos hc]
  · push_neg at hc
    have he := prevDay_valid_of dl pd hdl hpd hc
    have hs := nextDay_valid dl hdl
    have hsb := ord_bounds _ hs
    have heb := ord_bounds _ he
    have hy := year_le_of_ord_le _ _ hs he hc
    rw [calculate_interest_eq p1 dl pd hdl hpd hc, calculate_interest_eq p2 dl pd hdl hpd hc]
    show pyRound ((((yearsRange (nextDay dl).y (prevDay pd).y).map
        (windowSeg p1 (nextDay dl).ord (prevDay pd).ord)).map Segment.interest).sum + 0.00001)
      ≤ pyRound ((((yearsRange (nextDay dl).y (prevDay pd).y).map
        (windowSeg p2 (nextDay dl).ord (prevDay pd).ord)).map Segment.interest).sum + 0.00001)
    apply pyRound_mono
    apply add_le_add_right
    rw [List.map_map, List.map_map]
    apply List.sum_le_sum
    intro yy hyy
    rw [mem_yearsRange] at hyy
    show truncate1 (interest_segment p1 (get_rate (yy : ℤ)) _)
      ≤ truncate1 (interest_segment p2 (get_rate (yy : ℤ)) _)
    apply truncate1_mono
    apply interest_segment_mono p1 p2 _ _ hp (get_rate_nonneg _)
    exact windowSeg_days_nonneg p1 (nextDay dl).ord (prevDay pd).ord
      (nextDay dl).y (prevDay pd).y yy hyy.1 hyy.2 hsb.2 heb.1 hc

theorem claim_C10_witness :
    (calculate_interest 1000 ⟨2023, 1, 1⟩ ⟨2023, 2, 1⟩).1
      ≤ (calculate_interest 2000 ⟨2023, 1, 1⟩ ⟨2023, 2, 1⟩).1 :=
  claim_C10_monotone_principal 1000 2000 ⟨2023, 1, 1⟩ ⟨2023, 2, 1⟩
    (by decide) (by decide) (by decide)
